import Mathlib

/-!
Verification development for the Component Catalog Subsystem of the
vibe-coding-platform repository.

The TypeScript sources embedded here (shallowly, as executable Lean
definitions over a JSON value model) are:
  * `src/lib/xmcp/normalizer.ts`  — `normalizeComponentSpec` and its helpers,
    `normalizeComponentList`, `filterComponents`;
  * `src/lib/xmcp/fake-server.ts` — `loadCatalog`, `getCatalog` (catalog
    store with TTL cache), `fakeGetComponent`, `searchComponents`;
  * the `POST /api/xmcp/catalog/search` route handler;
  * `src/lib/xmcp/client.ts`      — the response-decoding stage of
    `XMCPClient.listComponents` / `XMCPClient.getComponent`, together with
    the zod response schemas from `src/lib/xmcp/types.ts`.

Decoded JSON is modelled by `JVal`.  JavaScript coercions used by the code
(`||` defaulting, `??` nullish coalescing, truthiness, `String(x)`,
`toLowerCase`, `includes`) are modelled explicitly.  Numbers are modelled as
integers (no claim in this development depends on non-integral numbers), and
`toLowerCase` is modelled on the ASCII range, which covers every string the
code and claims exercise.  JSON objects are association lists of fields; raw
objects produced by `JSON.parse` have distinct keys, and property lookup is
modelled "last field wins" so that object-spread (`{name, ...config}`) can be
modelled by list concatenation.
-/

/-- A decoded JSON value (the result of `JSON.parse` / a `response.json()`
body).  `undefined` is not a `JVal`; an absent object field is represented by
`Option.none` at lookup sites. -/
inductive JVal where
  | null : JVal
  | bool : Bool → JVal
  | num : Int → JVal
  | str : String → JVal
  | arr : List JVal → JVal
  | obj : List (String × JVal) → JVal

/-- Property lookup on an association list, last binding wins (JavaScript
object semantics: a later duplicate key overwrites an earlier one). -/
def lookupLast (fs : List (String × JVal)) (k : String) : Option JVal :=
  match fs with
  | [] => none
  | (k', v) :: rest =>
    match lookupLast rest k with
    | some w => some w
    | none => if k' == k then some v else none

/-- `v[k]` property access: `some` the field value on objects, `none`
(JavaScript `undefined`) otherwise. -/
def JVal.get? : JVal → String → Option JVal
  | .obj fs, k => lookupLast fs k
  | _, _ => none

/-- JavaScript truthiness of a value (`null`, `false`, `0` and `""` are
falsy; every array and object is truthy). -/
def truthy : JVal → Bool
  | .null => false
  | .bool b => b
  | .num n => n != 0
  | .str s => s != ""
  | .arr _ => true
  | .obj _ => true

/-- `a || d` where `a` is a possibly-absent property: the property value if
present and truthy, the fallback `d` otherwise (absent = `undefined`,
falsy). -/
def jsOr (a : Option JVal) (d : JVal) : JVal :=
  match a with
  | some v => if truthy v then v else d
  | none => d

/-- Collapses JavaScript `null` to `undefined`, the filter applied by `??`
to its left operand. -/
def nullish (a : Option JVal) : Option JVal :=
  match a with
  | some .null => none
  | o => o

mutual
/-- JavaScript `String(v)` coercion. -/
def jsString : JVal → String
  | .null => "null"
  | .bool true => "true"
  | .bool false => "false"
  | .num n => toString n
  | .str s => s
  | .arr xs => String.intercalate "," (jsStringArr xs)
  | .obj _ => "[object Object]"

/-- Element-wise stringification inside `Array.prototype.toString`, where a
`null` element prints as the empty string. -/
def jsStringArr : List JVal → List String
  | [] => []
  | .null :: xs => "" :: jsStringArr xs
  | x :: xs => jsString x :: jsStringArr xs
end

/-- `String(v)` where `v` may be an absent property (`String(undefined)`). -/
def jsStringOpt : Option JVal → String
  | some v => jsString v
  | none => "undefined"

/-- `toLowerCase` on the ASCII range (the only range the code and the claims
exercise). -/
def jsLowerChar (c : Char) : Char :=
  if 65 ≤ c.toNat ∧ c.toNat ≤ 90 then Char.ofNat (c.toNat + 32) else c

/-- `s.toLowerCase()` (ASCII). -/
def jsLower (s : String) : String :=
  ⟨s.data.map jsLowerChar⟩

/-- Whether `needle` is a prefix of `hay` (character-wise). -/
def charsStartWith : List Char → List Char → Bool
  | [], _ => true
  | _ :: _, [] => false
  | a :: as, b :: bs => a == b && charsStartWith as bs

/-- Whether `needle` occurs contiguously inside `hay`. -/
def charsHasSub (needle : List Char) : List Char → Bool
  | [] => charsStartWith needle []
  | h :: t => charsStartWith needle (h :: t) || charsHasSub needle t

/-- JavaScript `s.includes(sub)`. -/
def jsIncludes (s sub : String) : Bool :=
  charsHasSub sub.data s.data

/-! ## The normalized data model (runtime shapes)

These mirror the runtime values produced by `normalizer.ts`.  Where the
TypeScript source merely *casts* a string to an enum type (`String(type) as
'scss' | 'css' | 'module'`), the field is a `String` here, because at runtime
any string can flow through the cast. -/

/-- A normalized component prop (`ComponentProp` in `types.ts`). -/
structure ComponentProp where
  name : String
  type : String
  required : Bool
  defaultVal : Option JVal
  description : Option String

/-- A normalized component variant (`ComponentVariant`); `props` keeps the
raw prop-override record. -/
structure ComponentVariant where
  name : String
  description : Option String
  props : JVal

/-- A normalized component asset (`ComponentAsset`); the `type` field is a
`String` because `normalizeAssets` casts rather than checks. -/
structure ComponentAsset where
  path : String
  contents : String
  type : Option String

/-- A normalized style configuration (`ComponentStyle`); the `type` field is
a `String` because `normalizeStyle` casts rather than checks. -/
structure ComponentStyle where
  type : String
  entry : String

/-- A fully normalized component (`NormalizedComponentSpec`). -/
structure NormalizedComponentSpec where
  name : String
  package : String
  version : String
  description : String
  language : String
  style : Option ComponentStyle
  props : List ComponentProp
  variants : List ComponentVariant
  code : String
  assets : List ComponentAsset
  tags : List String
  dependencies : List String

/-- A catalog list item (`ComponentListItem`).  The TypeScript type marks
`tags` optional; every construction site in the code supplies it, but the
optional-chaining reads (`c.tags?.…`) are modelled faithfully. -/
structure ComponentListItem where
  name : String
  description : String
  package : String
  version : String
  style : Option ComponentStyle
  tags : Option (List String)

/-- Failure of `normalizeComponentSpec`: either the thrown
`Invalid component data: …` error (the spec's `MissingRequiredField`), or
the uncaught TypeError that the `variants`/`assets` map callbacks raise on a
`null` array element (property access on `null`, with no try/catch in
scope). -/
inductive NormalizeError where
  | invalidComponentData : NormalizeError
  | typeError : NormalizeError

/-! ## normalizer.ts -/

/-- `o` is a present string (zod `z.string()` on a field). -/
def isStrField (o : Option JVal) : Bool :=
  match o with
  | some (.str _) => true
  | _ => false

/-- `UnknownComponentSchema.safeParse` (zod): the input must be a plain
object whose `name` is a string and whose `description` / `package` /
`version`, when present, are strings; all other fields pass through. -/
def isOptStr (o : Option JVal) : Bool :=
  match o with
  | none => true
  | some (.str _) => true
  | _ => false

/-- Whether `UnknownComponentSchema.safeParse` succeeds on `v`. -/
def unknownComponentSchemaOk (v : JVal) : Bool :=
  match v with
  | .obj _ =>
    isStrField (v.get? "name")
      && isOptStr (v.get? "description")
      && isOptStr (v.get? "package")
      && isOptStr (v.get? "version")
  | _ => false

/-- `typeof v === 'object' && v !== null` (arrays included). -/
def isObjLike : JVal → Bool
  | .arr _ => true
  | .obj _ => true
  | _ => false

/-- `normalizeProp(prop)`: `null` for non-objects, otherwise a prop with
every field repaired (`name`/`type` via `||` defaulting, `required` via `??`
defaulting to `true`, `default` from `default ?? defaultValue`,
`description` only when truthy). -/
def normalizeProp (v : JVal) : Option ComponentProp :=
  if isObjLike v then
    some {
      name := jsString (jsOr (v.get? "name") (.str ""))
      type := jsString (jsOr (v.get? "type") (jsOr (v.get? "propType") (.str "any")))
      required := truthy (((nullish (v.get? "required")).orElse
        (fun _ => nullish (v.get? "isRequired"))).getD (.bool true))
      defaultVal := (nullish (v.get? "default")).orElse (fun _ => v.get? "defaultValue")
      description :=
        match v.get? "description" with
        | some d => if truthy d then some (jsString d) else none
        | none => none }
  else none

/-- Fields contributed by `...config` in an object literal: an object
spreads its fields, an array or string spreads index/character entries,
anything else contributes nothing. -/
def spreadFields : JVal → List (String × JVal)
  | .obj fs => fs
  | .arr xs => (List.range xs.length).zip xs |>.map (fun p => (toString p.1, p.2))
  | .str s => (List.range s.data.length).zip s.data
      |>.map (fun p => (toString p.1, JVal.str (String.singleton p.2)))
  | _ => []

/-- The object literal `{ name, ...config }` built by the keyed-object
branch of `normalizeProps` (with last-field-wins lookup, a `name` inside
`config` overrides the key, exactly as object spread does). -/
def propsObjInput (n : String) (config : JVal) : JVal :=
  .obj (("name", .str n) :: spreadFields config)

/-- `normalizeProps(props)`: `[]` for falsy input, element-wise
normalization for arrays, `Object.entries`-based normalization for keyed
objects, `[]` for any other value. -/
def normalizeProps (o : Option JVal) : List ComponentProp :=
  match o with
  | none => []
  | some v =>
    if truthy v then
      match v with
      | .arr xs => xs.filterMap normalizeProp
      | .obj fs => fs.filterMap (fun p => normalizeProp (propsObjInput p.1 p.2))
      | _ => []
    else []

/-- `normalizeStyle(style)`: `undefined` unless the value has `typeof
'object'` and is truthy; otherwise the `type` / `entry` strings with `||`
defaults — note the `String(type) as …` cast passes any string through. -/
def normalizeStyle (o : Option JVal) : Option ComponentStyle :=
  match o with
  | none => none
  | some v =>
    if isObjLike v then
      some {
        type := jsString (jsOr (v.get? "type") (.str "css"))
        entry := jsString (jsOr (v.get? "entry") (.str "styles.css")) }
    else none

/-- One element of a raw `variants` array, as the `variants.map` callback
builds it.  On a `null` element, `v.name` throws an uncaught TypeError
(`normalizeVariants` has no try/catch); any other element is repaired with
defaults. -/
def normalizeVariantElem (v : JVal) : Except NormalizeError ComponentVariant :=
  match v with
  | .null => .error .typeError
  | _ =>
    .ok {
      name := jsString (jsOr (v.get? "name") (.str ""))
      description :=
        match v.get? "description" with
        | some d => if truthy d then some (jsString d) else none
        | none => none
      props := jsOr (v.get? "props") (.obj []) }

/-- Per-element normalization sequenced the way `Array.prototype.map`
propagates a thrown exception: the first failing element aborts the whole
traversal. -/
def exTraverse {β : Type} (f : JVal → Except NormalizeError β) :
    List JVal → Except NormalizeError (List β)
  | [] => .ok []
  | x :: xs =>
    match f x with
    | .error e => .error e
    | .ok b =>
      match exTraverse f xs with
      | .error e => .error e
      | .ok bs => .ok (b :: bs)

/-- `normalizeVariants(variants)`: only an array is accepted — every other
value (including a keyed object) yields `[]` — but a `null` element inside
an accepted array throws an uncaught TypeError out of the enclosing
`normalizeComponentSpec`. -/
def normalizeVariants (o : Option JVal) : Except NormalizeError (List ComponentVariant) :=
  match o with
  | some (.arr xs) => exTraverse normalizeVariantElem xs
  | _ => .ok []

/-- One element of a raw `assets` array: on a `null` element, `a.path`
throws an uncaught TypeError (`normalizeAssets` has no try/catch). -/
def normalizeAssetElem (a : JVal) : Except NormalizeError ComponentAsset :=
  match a with
  | .null => .error .typeError
  | _ =>
    .ok {
      path := jsString (jsOr (a.get? "path") (.str ""))
      contents := jsString (jsOr (a.get? "contents") (.str ""))
      type :=
        match a.get? "type" with
        | some t => if truthy t then some (jsString t) else none
        | none => none }

/-- `normalizeAssets(assets)`: only an array is accepted, and a `null`
element inside an accepted array throws an uncaught TypeError. -/
def normalizeAssets (o : Option JVal) : Except NormalizeError (List ComponentAsset) :=
  match o with
  | some (.arr xs) => exTraverse normalizeAssetElem xs
  | _ => .ok []

/-- `normalizeComponentSpec(data)`: rejects with the schema error exactly
when `UnknownComponentSchema.safeParse` fails; otherwise it builds the
record, evaluating fields in source order — so a TypeError thrown by
`normalizeVariants` propagates before `normalizeAssets` is reached — and
repairs every other field with defaults (`normalizeProps` catches its own
errors; no other field can throw). -/
def normalizeComponentSpec (data : JVal) : Except NormalizeError NormalizedComponentSpec :=
  if unknownComponentSchemaOk data then
    match normalizeVariants (data.get? "variants") with
    | .error e => .error e
    | .ok vars =>
      match normalizeAssets (data.get? "assets") with
      | .error e => .error e
      | .ok assetList =>
        .ok {
          name := jsStringOpt (data.get? "name")
          package := jsString (jsOr (data.get? "package") (.str "@unknown/components"))
          version := jsString (jsOr (data.get? "version") (.str "1.0.0"))
          description := jsString (jsOr (data.get? "description") (.str ""))
          language :=
            let l := jsStringOpt (data.get? "language")
            if l == "tsx" || l == "jsx" then l else "tsx"
          style := normalizeStyle (data.get? "style")
          props := normalizeProps (data.get? "props")
          variants := vars
          code := jsString (jsOr (data.get? "code") (.str ""))
          assets := assetList
          tags :=
            match data.get? "tags" with
            | some (.arr xs) => xs.map jsString
            | _ => []
          dependencies :=
            match data.get? "dependencies" with
            | some (.arr xs) => xs.map jsString
            | _ => [] }
  else .error .invalidComponentData

/-- The list-item projection built from a normalized component (both in
`getCatalog` and in `normalizeComponentListItem`). -/
def toListItem (c : NormalizedComponentSpec) : ComponentListItem :=
  { name := c.name
    description := c.description
    package := c.package
    version := c.version
    style := c.style
    tags := some c.tags }

/-- `filterComponents(components, query?, tags?, packageName?)`: text filter
by lowercased substring over name / description / tags, tag filter by exact
intersection, package filter by equality; a falsy (absent or empty) argument
skips its filter. -/
def filterComponents (components : List ComponentListItem) (query : Option String)
    (tags : Option (List String)) (packageName : Option String) : List ComponentListItem :=
  let f1 :=
    match query with
    | some q =>
      if q != "" then
        components.filter (fun c =>
          jsIncludes (jsLower c.name) (jsLower q)
            || jsIncludes (jsLower c.description) (jsLower q)
            || (c.tags.getD []).any (fun t => jsIncludes (jsLower t) (jsLower q)))
      else components
    | none => components
  let f2 :=
    match tags with
    | some ts =>
      if ts.length > 0 then
        f1.filter (fun c => (c.tags.getD []).any (fun t => ts.contains t))
      else f1
    | none => f1
  match packageName with
  | some p => if p != "" then f2.filter (fun c => c.package == p) else f2
  | none => f2

/-! ## fake-server.ts — catalog store, lookup, search -/

/-- The in-memory catalog cache entry (`catalogCache`).  `lastLoaded` is
always set by the code when the cache is created; the truthiness check
`catalogCache?.lastLoaded` is modelled as `lastLoaded != 0`. -/
structure CatalogCache where
  components : List NormalizedComponentSpec
  listItems : List ComponentListItem
  lastLoaded : Nat
  metadata : Option JVal

/-- `CACHE_TTL = 5 * 60 * 1000` (milliseconds). -/
def CACHE_TTL : Nat := 5 * 60 * 1000

/-- The raw catalog value `loadCatalog` resolves with. -/
structure RawCatalog where
  components : List JVal
  metadata : Option JVal

/-- The metadata of the empty fallback catalog built inside `loadCatalog`'s
catch block. -/
def fallbackMetadata : JVal :=
  .obj [("version", .str "0.0.0"), ("totalComponents", .num 0),
        ("packages", .arr []), ("tags", .arr [])]

/-- `loadCatalog()`: the backing file read / `JSON.parse` outcome is the
`fileRead` argument (`none` = unreadable file or malformed JSON).  A
readable file whose top-level `components` is not an array throws inside the
`try`, and every failure is caught and replaced by the empty fallback
catalog — `loadCatalog` itself never rejects. -/
def loadCatalog (fileRead : Option JVal) : RawCatalog :=
  match fileRead with
  | some j =>
    match j.get? "components" with
    | some (.arr xs) => { components := xs, metadata := j.get? "metadata" }
    | _ => { components := [], metadata := some fallbackMetadata }
  | none => { components := [], metadata := some fallbackMetadata }

/-- The normalization loop of `getCatalog`: items that fail
`normalizeComponentSpec` are skipped; `components` and `listItems` are built
together in one pass. -/
def buildCache (raw : RawCatalog) (now : Nat) : CatalogCache :=
  let specs := raw.components.filterMap (fun rc => (normalizeComponentSpec rc).toOption)
  { components := specs
    listItems := specs.map toListItem
    lastLoaded := now
    metadata := raw.metadata }

/-- `getCatalog()`: returns the cache unchanged when it is fresh
(`now - lastLoaded < CACHE_TTL`), otherwise reloads and replaces it.  The
second component records whether the backing loader was invoked. -/
def getCatalog (cache : Option CatalogCache) (now : Nat) (fileRead : Option JVal) :
    CatalogCache × Bool :=
  match cache with
  | some c =>
    if c.lastLoaded != 0 && decide (now - c.lastLoaded < CACHE_TTL) then (c, false)
    else (buildCache (loadCatalog fileRead) now, true)
  | none => (buildCache (loadCatalog fileRead) now, true)

/-- Outcome of `fakeGetComponent`: the found component, or the thrown
`Component "…" not found.` error carrying the "Did you mean" suggestion
names. -/
inductive GetComponentOutcome where
  | found : NormalizedComponentSpec → GetComponentOutcome
  | notFound : List String → GetComponentOutcome

/-- `fakeGetComponent(request)` on an already-obtained catalog, for a
request without a variant (with no variant the returned component is the
stored one unchanged; the variant-override branch is outside the claims
settled here).  Lookup is case-insensitive; on failure the suggestions are
the first 3 list items whose lowercased name contains the lowercased query
or vice versa. -/
def fakeGetComponent (cat : CatalogCache) (name : String) : GetComponentOutcome :=
  match cat.components.find? (fun c => jsLower c.name == jsLower name) with
  | some c => .found c
  | none =>
    let similar := (cat.listItems.filter (fun c =>
      jsIncludes (jsLower c.name) (jsLower name)
        || jsIncludes (jsLower name) (jsLower c.name))).take 3
    .notFound (similar.map (fun c => c.name))

/-- Options accepted by `searchComponents`. -/
structure SearchOptions where
  query : Option String := none
  tags : Option (List String) := none
  packages : Option (List String) := none
  languages : Option (List String) := none
  limit : Option Nat := none
  offset : Option Nat := none

/-- `options.offset || 0` (for a number, `n || 0 = n`). -/
def effOffset (o : SearchOptions) : Nat :=
  match o.offset with
  | some n => n
  | none => 0

/-- `options.limit || 50`: an absent — or explicit `0`, which is falsy —
limit becomes 50. -/
def effLimit (o : SearchOptions) : Nat :=
  match o.limit with
  | some n => if n != 0 then n else 50
  | none => 50

/-- Result of `searchComponents`. -/
structure SearchResult where
  items : List ComponentListItem
  total : Nat
  hasMore : Bool

/-- `searchComponents(options)` on an already-obtained catalog: query /
tags / packages / languages filters compose with AND, then
`slice(offset, offset + limit)` pagination with
`hasMore = offset + limit < total`.  No cap on `limit` is enforced here. -/
def searchComponents (cat : CatalogCache) (o : SearchOptions) : SearchResult :=
  let f0 : List ComponentListItem := cat.listItems
  let f1 : List ComponentListItem :=
    match o.query with
    | some q => if q != "" then filterComponents f0 (some q) none none else f0
    | none => f0
  let f2 : List ComponentListItem :=
    match o.tags with
    | some ts =>
      if ts.length > 0 then
        f1.filter (fun c => ts.any (fun t => (c.tags.getD []).contains t))
      else f1
    | none => f1
  let f3 : List ComponentListItem :=
    match o.packages with
    | some ps =>
      if ps.length > 0 then f2.filter (fun c => ps.contains c.package) else f2
    | none => f2
  let f4 : List ComponentListItem :=
    match o.languages with
    | some ls =>
      if ls.length > 0 then
        let names := (cat.components.filter (fun c => ls.contains c.language)).map
          (fun c => c.name)
        f3.filter (fun c => names.contains c.name)
      else f3
    | none => f3
  let total := f4.length
  let off := effOffset o
  let lim := effLimit o
  { items := (f4.drop off).take lim
    total := total
    hasMore := decide (off + lim < total) }

/-! ## The `POST /api/xmcp/catalog/search` route handler -/

/-- The parsed request body of the search route; `none` models an absent
field (destructuring defaults apply to `undefined`). -/
structure SearchBody where
  query : Option String := none
  tags : Option (List String) := none
  packages : Option (List String) := none
  languages : Option (List String) := none
  limit : Option Nat := none
  offset : Option Nat := none

/-- The `pagination` object of the route's JSON response. -/
structure RoutePagination where
  offset : Nat
  limit : Nat
  hasMore : Bool
  nextOffset : Option Nat

/-- The success body of the search route. -/
structure RouteSearchResponse where
  items : List ComponentListItem
  total : Nat
  hasMore : Bool
  pagination : RoutePagination

/-- The route's 400 rejection (`Limit cannot exceed 100`), the spec's
`InvalidArgument`. -/
inductive RouteError where
  | invalidArgument : RouteError

/-- The search route handler: `limit = 20` and `offset = 0` destructuring
defaults, a hard rejection of `limit > 100`, then `searchComponents`. -/
def routeSearchPOST (cat : CatalogCache) (b : SearchBody) :
    Except RouteError RouteSearchResponse :=
  let limit := b.limit.getD 20
  let offset := b.offset.getD 0
  if limit > 100 then .error .invalidArgument
  else
    let r := searchComponents cat
      { query := b.query, tags := b.tags, packages := b.packages,
        languages := b.languages, limit := some limit, offset := some offset }
    .ok { items := r.items
          total := r.total
          hasMore := r.hasMore
          pagination :=
            { offset := offset
              limit := limit
              hasMore := r.hasMore
              nextOffset := if r.hasMore then some (offset + limit) else none } }

/-! ## client.ts — response decoding of `listComponents` / `getComponent`

`makeRequest` resolves with the parsed JSON body of a 2xx response; the
definitions below embed what `listComponents` / `getComponent` do with that
body. -/

/-- The component `normalizeComponentSpec` produces from the raw value
`{name: "Button"}`. -/
def buttonSpec : NormalizedComponentSpec :=
  { name := "Button", package := "@unknown/components", version := "1.0.0",
    description := "", language := "tsx", style := none, props := [],
    variants := [], code := "", assets := [], tags := [], dependencies := [] }

/-- A stale catalog cache (loaded at t = 1000 ms) holding the single
component `Button`. -/
def buttonCache : CatalogCache :=
  { components := [buttonSpec], listItems := [toListItem buttonSpec],
    lastLoaded := 1000, metadata := none }

/-- The same catalog, freshly loaded at t = 1000000 ms. -/
def freshButtonCache : CatalogCache :=
  { buttonCache with lastLoaded := 1000000 }

/-- A raw component whose `name` is a usable string but whose `description`
is a number. -/
def badDescInput : JVal := .obj [("name", .str "Button"), ("description", .num 42)]

/-- A raw component carrying a `category` but no `tags`. -/
def categoryInput : JVal := .obj [("name", .str "Widget"), ("category", .str "Form")]

/-- The component `normalizeComponentSpec` produces from `categoryInput`. -/
def widgetSpec : NormalizedComponentSpec :=
  { name := "Widget", package := "@unknown/components", version := "1.0.0",
    description := "", language := "tsx", style := none, props := [],
    variants := [], code := "", assets := [], tags := [], dependencies := [] }

/-- C1, counterexample.  The store is stale (loaded at 1000 ms, read at
1000000 ms, TTL 300000 ms) and holds the non-empty snapshot `buttonCache`;
the backing load fails (`fileRead = none`).  `get()` then returns an *empty*
snapshot, not the previous one: the previous snapshot is replaced, so the
claimed stale-while-erroring behaviour does not hold. -/
theorem C1_counterexample :
    (getCatalog (some buttonCache) 1000000 none).1.components = [] ∧
    (getCatalog (some buttonCache) 1000000 none).1 ≠ buttonCache := by
  refine ⟨rfl, fun h => ?_⟩
  have h2 := congrArg CatalogCache.components h
  rw [show (getCatalog (some buttonCache) 1000000 none).1.components = [] from rfl] at h2
  exact List.cons_ne_nil buttonSpec [] h2.symm

/-- C1, amended.  When the backing load fails during a reload (stale or
absent cache), `get()` raises nothing and returns a freshly built empty
snapshot (`components: []`, fallback metadata), replacing any previous
snapshot — the previous snapshot is not returned even when one exists. -/
theorem C1_store_failure_returns_empty (cache : Option CatalogCache) (now : Nat)
    (hstale : ∀ c, cache = some c → c.lastLoaded = 0 ∨ CACHE_TTL ≤ now - c.lastLoaded) :
    getCatalog cache now none =
      ({ components := [], listItems := [], lastLoaded := now,
         metadata := some fallbackMetadata }, true) := by
  cases cache with
  | none => rfl
  | some c =>
    have h := hstale c rfl
    have hb : (c.lastLoaded != 0 && decide (now - c.lastLoaded < CACHE_TTL)) = false := by
      rcases h with h | h
      · simp [h]
      · simp [Nat.not_lt.mpr h]
    simp only [getCatalog, hb, Bool.false_eq_true, if_false]
    rfl

/-- Witness for `C1_store_failure_returns_empty` at the stale
`buttonCache`. -/
theorem C1_store_failure_returns_empty_witness :
    getCatalog (some buttonCache) 1000000 none =
      ({ components := [], listItems := [], lastLoaded := 1000000,
         metadata := some fallbackMetadata }, true) :=
  C1_store_failure_returns_empty (some buttonCache) 1000000
    (fun c hc => by cases hc; right; decide)

/-! ## C2 — the fatal condition of `normalizeComponentSpec` -/

/-- C2, counterexample.  `{name: "Button", description: 42}` carries a
usable `name` string, yet normalization fails: a present non-string
`description` (or `package`, or `version`) is also fatal, so "no usable name
string" is not the only fatal condition. -/
theorem C2_counterexample :
    badDescInput.get? "name" = some (.str "Button") ∧
    normalizeComponentSpec badDescInput = .error .invalidComponentData :=
  ⟨rfl, rfl⟩

/-- A possibly-absent field is absent or holds a string (the meaning of a
zod optional string). -/
def OptStrP (o : Option JVal) : Prop := o = none ∨ ∃ s, o = some (.str s)

theorem isStrField_eq_true_iff (o : Option JVal) :
    isStrField o = true ↔ ∃ s, o = some (.str s) := by
  cases o with
  | none => simp [isStrField]
  | some v => cases v <;> simp [isStrField]

theorem isOptStr_eq_true_iff (o : Option JVal) : isOptStr o = true ↔ OptStrP o := by
  cases o with
  | none => simp [isOptStr, OptStrP]
  | some v => cases v <;> simp [isOptStr, OptStrP]

/-- The success condition of `UnknownComponentSchema` in `Prop` form. -/
def SchemaP (v : JVal) : Prop :=
  (∃ fs, v = .obj fs) ∧ (∃ s, v.get? "name" = some (.str s)) ∧
    OptStrP (v.get? "description") ∧ OptStrP (v.get? "package") ∧
    OptStrP (v.get? "version")

/-- A possibly-absent field holds an array with a `null` element — the
shape on which the `variants`/`assets` map callbacks throw. -/
def NullElemP (o : Option JVal) : Prop :=
  ∃ xs, o = some (.arr xs) ∧ JVal.null ∈ xs

theorem unknownComponentSchemaOk_iff (v : JVal) :
    unknownComponentSchemaOk v = true ↔ SchemaP v := by
  cases v <;>
    simp [unknownComponentSchemaOk, SchemaP, isStrField_eq_true_iff,
      isOptStr_eq_true_iff, and_assoc]

theorem normalizeVariantElem_ok (w : JVal) (hw : w ≠ .null) :
    ∃ b, normalizeVariantElem w = .ok b := by
  cases w <;> first | exact absurd rfl hw | exact ⟨_, rfl⟩

theorem normalizeVariantElem_error_eq (w : JVal) (e : NormalizeError)
    (h : normalizeVariantElem w = .error e) : e = .typeError := by
  cases w <;> first | exact (Except.error.inj h).symm | exact Except.noConfusion h

theorem normalizeAssetElem_ok (w : JVal) (hw : w ≠ .null) :
    ∃ b, normalizeAssetElem w = .ok b := by
  cases w <;> first | exact absurd rfl hw | exact ⟨_, rfl⟩

theorem normalizeAssetElem_error_eq (w : JVal) (e : NormalizeError)
    (h : normalizeAssetElem w = .error e) : e = .typeError := by
  cases w <;> first | exact (Except.error.inj h).symm | exact Except.noConfusion h

theorem exTraverse_error_iff {β : Type} (f : JVal → Except NormalizeError β)
    (hnull : f .null = .error .typeError)
    (hok : ∀ w : JVal, w ≠ .null → ∃ b, f w = .ok b)
    (xs : List JVal) :
    (∃ e, exTraverse f xs = .error e) ↔ JVal.null ∈ xs := by
  induction xs with
  | nil => simp [exTraverse]
  | cons x rest ih =>
    by_cases hx : x = .null
    · subst hx
      rw [exTraverse, hnull]
      exact ⟨fun _ => List.mem_cons_self _ _, fun _ => ⟨.typeError, rfl⟩⟩
    · rcases hok x hx with ⟨b, hb⟩
      rw [exTraverse, hb]
      cases hr : exTraverse f rest with
      | error e =>
        exact ⟨fun _ => List.mem_cons_of_mem x (ih.mp ⟨e, hr⟩), fun _ => ⟨e, rfl⟩⟩
      | ok bs =>
        constructor
        · rintro ⟨e, he⟩
          exact Except.noConfusion he
        · intro hmem
          rcases List.mem_cons.mp hmem with h | h
          · exact absurd h.symm hx
          · rcases ih.mpr h with ⟨e, he⟩
            rw [hr] at he
            exact Except.noConfusion he

theorem exTraverse_error_eq {β : Type} (f : JVal → Except NormalizeError β)
    (herr : ∀ w e, f w = .error e → e = .typeError) :
    ∀ (xs : List JVal) (e : NormalizeError),
      exTraverse f xs = .error e → e = .typeError := by
  intro xs
  induction xs with
  | nil =>
    intro e h
    rw [exTraverse] at h
    exact Except.noConfusion h
  | cons x rest ih =>
    intro e h
    rw [exTraverse] at h
    cases hf : f x with
    | error e' =>
      rw [hf] at h
      rw [← Except.error.inj h]
      exact herr x e' hf
    | ok b =>
      rw [hf] at h
      cases hr : exTraverse f rest with
      | error e' =>
        rw [hr] at h
        rw [← Except.error.inj h]
        exact ih e' hr
      | ok bs =>
        rw [hr] at h
        exact Except.noConfusion h

theorem normalizeVariants_error_iff (o : Option JVal) :
    (∃ e, normalizeVariants o = .error e) ↔ NullElemP o := by
  cases o with
  | none => simp [normalizeVariants, NullElemP]
  | some v =>
    cases v
    case arr xs =>
      rw [show normalizeVariants (some (.arr xs)) = exTraverse normalizeVariantElem xs
        from rfl]
      rw [exTraverse_error_iff normalizeVariantElem rfl normalizeVariantElem_ok xs]
      simp [NullElemP]
    all_goals simp [normalizeVariants, NullElemP]

theorem normalizeVariants_error_typeErr (o : Option JVal) (e : NormalizeError)
    (h : normalizeVariants o = .error e) : e = .typeError := by
  cases o with
  | none => exact Except.noConfusion h
  | some v =>
    cases v
    case arr xs =>
      exact exTraverse_error_eq normalizeVariantElem normalizeVariantElem_error_eq xs e h
    all_goals exact Except.noConfusion h

theorem normalizeAssets_error_iff (o : Option JVal) :
    (∃ e, normalizeAssets o = .error e) ↔ NullElemP o := by
  cases o with
  | none => simp [normalizeAssets, NullElemP]
  | some v =>
    cases v
    case arr xs =>
      rw [show normalizeAssets (some (.arr xs)) = exTraverse normalizeAssetElem xs
        from rfl]
      rw [exTraverse_error_iff normalizeAssetElem rfl normalizeAssetElem_ok xs]
      simp [NullElemP]
    all_goals simp [normalizeAssets, NullElemP]

theorem normalizeAssets_error_typeErr (o : Option JVal) (e : NormalizeError)
    (h : normalizeAssets o = .error e) : e = .typeError := by
  cases o with
  | none => exact Except.noConfusion h
  | some v =>
    cases v
    case arr xs =>
      exact exTraverse_error_eq normalizeAssetElem normalizeAssetElem_error_eq xs e h
    all_goals exact Except.noConfusion h

/-- C2, amended.  `normalizeComponentSpec` rejects with the schema error
(`MissingRequiredField`) exactly when the input is not a plain object
carrying a string `name`, or one of `description` / `package` / `version`
is present with a non-string value.  But not everything else is repaired:
a `null` element inside a `variants` or `assets` array crashes
normalization with an uncaught TypeError instead of being repaired, so
normalization throws exactly when the schema fails or such a `null`
element is present. -/
theorem C2_normalize_fails_iff (v : JVal) :
    (normalizeComponentSpec v = .error .invalidComponentData ↔ ¬SchemaP v) ∧
    ((∃ e, normalizeComponentSpec v = .error e) ↔
      ¬SchemaP v ∨ NullElemP (v.get? "variants") ∨ NullElemP (v.get? "assets")) := by
  by_cases hs : unknownComponentSchemaOk v
  · have hsp : SchemaP v := (unknownComponentSchemaOk_iff v).mp hs
    rw [normalizeComponentSpec, if_pos hs]
    cases hvar : normalizeVariants (v.get? "variants") with
    | error e =>
      have he := normalizeVariants_error_typeErr _ _ hvar
      subst he
      refine ⟨⟨fun h => absurd (Except.error.inj h) (by simp), fun h => absurd hsp h⟩, ?_⟩
      exact ⟨fun _ => Or.inr (Or.inl ((normalizeVariants_error_iff _).mp ⟨_, hvar⟩)),
        fun _ => ⟨.typeError, rfl⟩⟩
    | ok vars =>
      cases hass : normalizeAssets (v.get? "assets") with
      | error e =>
        have he := normalizeAssets_error_typeErr _ _ hass
        subst he
        refine ⟨⟨fun h => absurd (Except.error.inj h) (by simp), fun h => absurd hsp h⟩, ?_⟩
        exact ⟨fun _ => Or.inr (Or.inr ((normalizeAssets_error_iff _).mp ⟨_, hass⟩)),
          fun _ => ⟨.typeError, rfl⟩⟩
      | ok assetList =>
        refine ⟨⟨fun h => Except.noConfusion h, fun h => absurd hsp h⟩, ?_⟩
        constructor
        · rintro ⟨e, he⟩
          exact Except.noConfusion he
        · rintro (h | h | h)
          · exact absurd hsp h
          · rcases (normalizeVariants_error_iff _).mpr h with ⟨e, he⟩
            rw [hvar] at he
            exact Except.noConfusion he
          · rcases (normalizeAssets_error_iff _).mpr h with ⟨e, he⟩
            rw [hass] at he
            exact Except.noConfusion he
  · have hsp : ¬SchemaP v := fun hp => hs ((unknownComponentSchemaOk_iff v).mpr hp)
    rw [normalizeComponentSpec, if_neg hs]
    exact ⟨⟨fun _ => hsp, fun _ => rfl⟩,
      ⟨fun _ => Or.inl hsp, fun _ => ⟨.invalidComponentData, rfl⟩⟩⟩

/-- Witness for `C2_normalize_fails_iff`: the schema rejection at
`badDescInput` (whose `description` holds `42`), and the TypeError crash at
`{name: "Button", variants: [null]}`. -/
theorem C2_normalize_fails_iff_witness :
    normalizeComponentSpec badDescInput = .error .invalidComponentData ∧
    (∃ e, normalizeComponentSpec
      (.obj [("name", .str "Button"), ("variants", .arr [.null])]) = .error e) :=
  ⟨(C2_normalize_fails_iff badDescInput).1.mpr (by
      rintro ⟨-, -, hdesc, -, -⟩
      rcases hdesc with h | ⟨s, h⟩
      · exact Option.noConfusion h
      · exact JVal.noConfusion (Option.some.inj h)),
   (C2_normalize_fails_iff _).2.mpr
     (Or.inr (Or.inl ⟨[.null], rfl, List.mem_cons_self _ _⟩))⟩

/-! ## C3 — `getByName` lookup, NotFound suggestions -/

/-- C3, counterexample.  Against a catalog containing exactly `Button`, the
query `Buton` fails with the not-found error but the suggestion list is
*empty* — `"button".includes("buton")` and `"buton".includes("button")` are
both false, so exact containment produces no suggestion, not
`["Button"]`. -/
theorem C3_counterexample :
    buttonCache.listItems.map ComponentListItem.name = ["Button"] ∧
    fakeGetComponent buttonCache "Buton" = .notFound [] :=
  ⟨rfl, rfl⟩

/-- C3, amended.  `getByName` matches case-insensitively; on failure it
returns up to 3 suggestions, each the name of a list item whose lowercased
name contains the lowercased query or vice versa; and in particular the
query `Buton` against a catalog containing `Button` fails with the empty
suggestion list. -/
theorem C3_getByName_behavior :
    (∀ (cat : CatalogCache) (name : String) (c : NormalizedComponentSpec),
      fakeGetComponent cat name = .found c →
        c ∈ cat.components ∧ jsLower c.name = jsLower name) ∧
    (∀ (cat : CatalogCache) (name : String) (sugg : List String),
      fakeGetComponent cat name = .notFound sugg →
        (∀ c ∈ cat.components, jsLower c.name ≠ jsLower name) ∧
        sugg.length ≤ 3 ∧
        (∀ s ∈ sugg, ∃ item ∈ cat.listItems, item.name = s ∧
          (jsIncludes (jsLower s) (jsLower name) ∨
            jsIncludes (jsLower name) (jsLower s)))) ∧
    fakeGetComponent buttonCache "Buton" = .notFound [] := by
  refine ⟨?_, ?_, rfl⟩
  · intro cat name c h
    rw [fakeGetComponent] at h
    cases hfind : cat.components.find? (fun c => jsLower c.name == jsLower name) with
    | none => rw [hfind] at h; exact GetComponentOutcome.noConfusion h
    | some c' =>
      rw [hfind] at h
      cases h
      have hp := List.find?_some hfind
      exact ⟨List.mem_of_find?_eq_some hfind, by simpa using hp⟩
  · intro cat name sugg h
    rw [fakeGetComponent] at h
    cases hfind : cat.components.find? (fun c => jsLower c.name == jsLower name) with
    | some c' => rw [hfind] at h; exact GetComponentOutcome.noConfusion h
    | none =>
      rw [hfind] at h
      cases h
      refine ⟨?_, ?_, ?_⟩
      · intro c hc heq
        have := List.find?_eq_none.mp hfind c hc
        simp [heq] at this
      · rw [List.length_map]
        exact List.length_take_le 3 _
      · intro s hs
        rcases List.mem_map.mp hs with ⟨item, hitem, hname⟩
        have hfil := List.mem_of_mem_take hitem
        rcases List.mem_filter.mp hfil with ⟨hmem, hpred⟩
        subst hname
        have hpred' : jsIncludes (jsLower item.name) (jsLower name) = true ∨
            jsIncludes (jsLower name) (jsLower item.name) = true := by
          simpa [Bool.or_eq_true] using hpred
        exact ⟨item, hmem, rfl, hpred'⟩

/-- Witness for `C3_getByName_behavior`: the found case at the
case-insensitive query `buTTon`, and the not-found case at `Buton`. -/
theorem C3_getByName_behavior_witness :
    (buttonSpec ∈ buttonCache.components ∧ jsLower buttonSpec.name = jsLower "buTTon") ∧
    (∀ c ∈ buttonCache.components, jsLower c.name ≠ jsLower "Buton") :=
  ⟨C3_getByName_behavior.1 buttonCache "buTTon" buttonSpec rfl,
   (C3_getByName_behavior.2.1 buttonCache "Buton" [] rfl).1⟩

/-! ## C4 — pagination defaults, cap, `hasMore` -/

/-- C4, counterexample.  A search request without a `limit` is answered by
the HTTP route with an effective limit of 20, not the claimed default of
50. -/
theorem C4_counterexample :
    (routeSearchPOST buttonCache {}).map (fun r => r.pagination.limit) = .ok 20 ∧
    (routeSearchPOST buttonCache {}).map (fun r => r.pagination.limit) ≠ .ok 50 := by
  refine ⟨rfl, fun h => ?_⟩
  have h2 : (Except.ok 20 : Except RouteError Nat) = .ok 50 :=
    (rfl : (routeSearchPOST buttonCache {}).map (fun r => r.pagination.limit)
      = .ok 20).symm.trans h
  have h3 := Except.ok.inj h2
  exact absurd h3 (by decide)

/-- C4, amended.  `searchComponents` itself defaults `offset` to 0 and
`limit` to 50 and enforces no cap at all; the hard cap of 100 — failing with
`InvalidArgument` rather than being clamped — is enforced only by the HTTP
search route, whose own `limit` default is 20 (not 50); and every returned
`hasMore` equals `offset + limit < total` for the effective offset and
limit. -/
theorem C4_pagination_behavior :
    (∀ o : SearchOptions, o.limit = none → effLimit o = 50) ∧
    (∀ o : SearchOptions, o.offset = none → effOffset o = 0) ∧
    (∀ (cat : CatalogCache) (b : SearchBody) (l : Nat), b.limit = some l → 100 < l →
      routeSearchPOST cat b = .error .invalidArgument) ∧
    (∀ (cat : CatalogCache) (b : SearchBody), b.limit = none →
      (routeSearchPOST cat b).map (fun r => r.pagination.limit) = .ok 20) ∧
    (∀ (cat : CatalogCache) (o : SearchOptions),
      (searchComponents cat o).hasMore =
        decide (effOffset o + effLimit o < (searchComponents cat o).total)) := by
  refine ⟨?_, ?_, ?_, ?_, ?_⟩
  · intro o h; simp [effLimit, h]
  · intro o h; simp [effOffset, h]
  · intro cat b l hb hl
    rw [routeSearchPOST]
    simp only [hb, Option.getD_some]
    rw [if_pos hl]
  · intro cat b hb
    rw [routeSearchPOST]
    simp only [hb, Option.getD_none]
    rw [if_neg (by decide)]
    rfl
  · intro cat o; rfl

/-- Witness for `C4_pagination_behavior` at concrete inputs: the defaults,
the cap rejection at limit 200, the route default of 20, and the `hasMore`
formula against `buttonCache`. -/
theorem C4_pagination_behavior_witness :
    effLimit {} = 50 ∧ effOffset {} = 0 ∧
    routeSearchPOST buttonCache { limit := some 200 } = .error .invalidArgument ∧
    (routeSearchPOST buttonCache {}).map (fun r => r.pagination.limit) = .ok 20 ∧
    (searchComponents buttonCache {}).hasMore =
      decide (effOffset {} + effLimit {} < (searchComponents buttonCache {}).total) :=
  ⟨C4_pagination_behavior.1 {} rfl,
   C4_pagination_behavior.2.1 {} rfl,
   C4_pagination_behavior.2.2.1 buttonCache { limit := some 200 } 200 rfl (by decide),
   C4_pagination_behavior.2.2.2.1 buttonCache {} rfl,
   C4_pagination_behavior.2.2.2.2 buttonCache {}⟩

/-! ## C5 — style `type` is cast through, not restricted to the enum -/

/-- C5: the code contradicts its own `ComponentStyleSchema` enum.  A raw
style `{type: "sass", entry: "a.css"}` is normalized with
`type = "sass"` — the unsafe cast `String(type) as 'scss'|'css'|'module'`
passes any string through instead of normalizing it to `"css"`. -/
theorem C5_style_type_passthrough :
    normalizeStyle (some (.obj [("type", .str "sass"), ("entry", .str "a.css")])) =
      some { type := "sass", entry := "a.css" } ∧
    "sass" ∉ (["scss", "css", "module"] : List String) :=
  ⟨rfl, by decide⟩

/-! ## C6 — array vs keyed-object encodings of props and variants -/

/-- C6, counterexample.  The keyed-object encoding
`{primary: {}}` of the single variant `primary` normalizes to `[]`, while
the equivalent array encoding `[{name: "primary"}]` normalizes to the
one-variant list: the claimed encoding equivalence fails for variants
(`normalizeVariants` accepts only arrays). -/
theorem C6_counterexample :
    normalizeVariants (some (.obj [("primary", .obj [])])) = .ok [] ∧
    normalizeVariants (some (.arr [.obj [("name", .str "primary")]])) =
      .ok [{ name := "primary", description := none, props := .obj [] }] :=
  ⟨rfl, rfl⟩

/-- C6, amended.  Props do normalize identically under the two encodings:
for every keyed object, normalizing it equals normalizing the array whose
i-th element is the object literal `{name: key_i, ...config_i}` (order
preserved).  Variants do not: every keyed-object variants value normalizes
to the empty list. -/
theorem C6_encoding_equivalence :
    (∀ pairs : List (String × JVal),
      normalizeProps (some (.obj pairs)) =
        normalizeProps (some (.arr (pairs.map (fun p => propsObjInput p.1 p.2))))) ∧
    (∀ fs : List (String × JVal), normalizeVariants (some (.obj fs)) = .ok []) := by
  refine ⟨?_, fun fs => rfl⟩
  intro pairs
  show pairs.filterMap (fun p => normalizeProp (propsObjInput p.1 p.2)) =
    (pairs.map (fun p => propsObjInput p.1 p.2)).filterMap normalizeProp
  rw [List.filterMap_map]
  rfl

/-! ## C7 — tags fallback -/

/-- C7, counterexample.  A raw component with a `category` but no `tags`
normalizes with `tags = []`, not with the claimed single-element list
`["Form"]` derived from the category. -/
theorem C7_counterexample :
    categoryInput.get? "category" = some (.str "Form") ∧
    (normalizeComponentSpec categoryInput).map NormalizedComponentSpec.tags = .ok [] :=
  ⟨rfl, rfl⟩

/-- C7, amended.  Normalized tags come only from an explicit `tags` array;
when none is present the tags are the empty list, whether or not a
`category` field exists — the `category` field is never consulted. -/
theorem C7_tags_ignore_category (v : JVal) (spec : NormalizedComponentSpec)
    (hok : normalizeComponentSpec v = .ok spec)
    (htags : ∀ xs, v.get? "tags" ≠ some (.arr xs)) :
    spec.tags = [] := by
  by_cases hs : unknownComponentSchemaOk v
  · rw [normalizeComponentSpec, if_pos hs] at hok
    cases hvar : normalizeVariants (v.get? "variants") with
    | error e =>
      rw [hvar] at hok
      exact Except.noConfusion hok
    | ok vars =>
      rw [hvar] at hok
      cases hass : normalizeAssets (v.get? "assets") with
      | error e =>
        rw [hass] at hok
        exact Except.noConfusion hok
      | ok assetList =>
        rw [hass] at hok
        cases hok
        cases hv : v.get? "tags" with
        | none => simp [hv]
        | some w =>
          cases w <;> simp [hv]
          exact absurd hv (htags _)
  · rw [normalizeComponentSpec, if_neg hs] at hok
    exact Except.noConfusion hok

/-- Witness for `C7_tags_ignore_category` at `categoryInput`. -/
theorem C7_tags_ignore_category_witness : widgetSpec.tags = [] :=
  C7_tags_ignore_category categoryInput widgetSpec rfl
    (fun _ h => Option.noConfusion h)

/-! ## C8 — TTL cache hit -/

/-- C8.  Whenever the store holds a snapshot whose age is within
`CACHE_TTL`, `get()` returns that snapshot unchanged and the backing loader
is not invoked (the `Bool` component records loader invocation).  The
`lastLoaded ≠ 0` hypothesis reflects the code's truthiness test on
`catalogCache?.lastLoaded`; every cache the code builds stores a real
`Date.now()` timestamp there. -/
theorem C8_cache_hit (c : CatalogCache) (now : Nat) (fileRead : Option JVal)
    (h0 : c.lastLoaded ≠ 0) (hfresh : now - c.lastLoaded < CACHE_TTL) :
    getCatalog (some c) now fileRead = (c, false) := by
  have hb : (c.lastLoaded != 0 && decide (now - c.lastLoaded < CACHE_TTL)) = true := by
    simp [h0, hfresh]
  rw [getCatalog]
  rw [if_pos hb]

/-- Witness for `C8_cache_hit`: TTL 5 minutes, last load at t = 1000000 ms,
read 1 minute later. -/
theorem C8_cache_hit_witness :
    getCatalog (some freshButtonCache) 1060000 none = (freshButtonCache, false) :=
  C8_cache_hit freshButtonCache 1060000 none (by decide) (by decide)

/-! ## C9 — client response decoding order -/

/-- C10.  A raw prop object carrying neither `required` nor `isRequired`
normalizes with `required = true`: unspecified requiredness is treated as
required (`p.required ?? p.isRequired ?? true`). -/
theorem C10_required_default_true (fs : List (String × JVal))
    (hreq : lookupLast fs "required" = none)
    (hisreq : lookupLast fs "isRequired" = none) :
    (normalizeProp (.obj fs)).map ComponentProp.required = some true := by
  simp [normalizeProp, isObjLike, JVal.get?, hreq, hisreq, nullish, Option.orElse, truthy]

/-- Witness for `C10_required_default_true` at the prop `{name: "size"}`. -/
theorem C10_required_default_true_witness :
    (normalizeProp (.obj [("name", JVal.str "size")])).map ComponentProp.required =
      some true :=
  C10_required_default_true [("name", JVal.str "size")] rfl rfl
